import Mathlib

/-!
Shallow embedding of the Activity Aggregation & Timesheet Synthesis Engine
(repository: Github-Timesheet-with-MCP).

The Python sources embedded here:
- src/servers/github_server.py : fetch_github_activity (identity matching and
  cross-branch commit deduplication);
- src/servers/excel_server.py  : get_data_date_range, read_unified_date_range,
  generate_final_timesheet;
- src/client.py                : batch_enrich_commits, reporter_node (input
  parsing and the call into generate_final_timesheet).

Modelling conventions:
- calendar dates are day numbers (Int); the source compares dates through
  normalized YYYY-MM-DD strings, which are in bijection with day numbers, so
  equality and order of day numbers coincide with the source comparisons;
- Python strings are Lean String (ASCII behaviour of lower/strip/isdigit);
- worklog hours (floats in the source) are modelled as rationals;
- pandas DataFrames are lists of typed rows; a sheet that is missing or has no
  usable date column is an Option.none;
- all functions are total; a Python code path that raises and is caught by a
  surrounding try/except is modelled by the value that except branch returns.
-/

/-- Python s.lower() on an ASCII string, as a character list. -/
def lowerStr (s : String) : List Char := s.toList.map Char.toLower

/-- Python list/str prefix test used by pyIn: needle is a prefix of hay. -/
def isPrefixChars : List Char → List Char → Bool
  | [], _ => true
  | _ :: _, [] => false
  | a :: as, b :: bs => a == b && isPrefixChars as bs

/-- Python substring operator: pyIn needle hay models needle in hay.
The empty needle is contained in every string, as in Python. -/
def pyIn (needle : List Char) : List Char → Bool
  | [] => needle.isEmpty
  | b :: bs => isPrefixChars needle (b :: bs) || pyIn needle bs

/-- github_server.py lines 49-51: strict tier of the identity matcher.
A commit linked to an account (c.author is not None) matches when the account
login equals the target username case-insensitively. -/
def strict_match (login : Option String) (username : String) : Bool :=
  match login with
  | some l => lowerStr l == lowerStr username
  | none => false

/-- github_server.py lines 54-62: fallback tier of the identity matcher.
Guarded by the truthiness of c.commit.author.name (an empty or missing author
name is modelled by the empty string), then a case-insensitive substring test
in either direction between author name and target username. -/
def loose_match (authorName username : String) : Bool :=
  if authorName == "" then false
  else
    let a := lowerStr authorName
    let t := lowerStr username
    pyIn t a || pyIn a t

/-- github_server.py lines 46-62: the combined identity matcher for one commit.
The Python is an if/elif chain; the elif body runs exactly when the strict
tier did not fire, so the result is the disjunction written as if/else here. -/
def is_match (login : Option String) (authorName username : String) : Bool :=
  if strict_match login username then true else loose_match authorName username

/-- One raw commit as discovered by the branch traversal in
fetch_github_activity. sha is the full commit id used for deduplication;
branch is the traversal context (branch name) it was discovered on. -/
structure RawCommit where
  sha : String
  branch : String
  authorLogin : Option String
  authorName : String
  date : Int
  message : String
deriving DecidableEq

/-- github_server.py lines 39-71: the branch-traversal loop that fills
user_commits. The input list is the concatenation of the per-branch commit
streams in traversal order; seen is the seen_hashes set (a list here).
A commit whose sha was already seen is skipped before any matching; a novel
sha is recorded immediately; the commit is kept only when the identity
matcher accepts it. -/
def fetch_go (u : String) : List RawCommit → List String → List RawCommit
  | [], _ => []
  | c :: rest, seen =>
    if c.sha ∈ seen then fetch_go u rest seen
    else if is_match c.authorLogin c.authorName u then
      c :: fetch_go u rest (c.sha :: seen)
    else
      fetch_go u rest (c.sha :: seen)

/-- github_server.py lines 32-74: user_commits produced by one run of
fetch_github_activity, starting from an empty seen_hashes set. The emitted
dict additionally truncates the sha to 7 characters for display
(c.sha[:7]); the dedup identity is the full sha modelled here. -/
def fetch_user_commits (u : String) (cs : List RawCommit) : List RawCommit :=
  fetch_go u cs []

/-- Python str.strip() (whitespace from both ends) on a character list. -/
def pyStrip (s : List Char) : List Char :=
  ((s.dropWhile Char.isWhitespace).reverse.dropWhile Char.isWhitespace).reverse

/-- Python line.split(". ", 1)[-1]: the part after the first occurrence of
the two-character separator, or the whole string when absent. -/
def afterNumberDot : List Char → Option (List Char)
  | [] => none
  | '.' :: ' ' :: rest => some rest
  | _ :: rest => afterNumberDot rest

/-- client.py line 81: lines[idx].split(". ", 1)[-1].strip(). -/
def clean_line (line : String) : List Char :=
  pyStrip (match afterNumberDot line.toList with
    | some r => r
    | none => line.toList)

/-- client.py lines 77-84: the per-batch enrichment loop of
batch_enrich_commits. A commit dict is reduced to its message; the output
pairs each message with the ai_summary assigned to it. lines is the
newline-split text returned by the text-generation call for this batch;
k is the running index. An index past the end of lines keeps the raw
message; a returned line is used only when its cleaned form is longer
than 5 characters. -/
def enrich_go (lines : List String) : Nat → List String → List (String × String)
  | _, [] => []
  | k, m :: rest =>
    let summary :=
      match lines[k]? with
      | some line =>
        let c := clean_line line
        if c.length > 5 then String.mk c else m
      | none => m
    (m, summary) :: enrich_go lines (k + 1) rest

/-- client.py lines 64-89: batch_enrich_commits restricted to one batch
(the source cuts the input into batches of 20 and runs this loop per batch;
the claim is stated per batch). -/
def batch_enrich_commits (batch lines : List String) : List (String × String) :=
  enrich_go lines 0 batch

/-- Result of get_data_date_range (excel_server.py lines 76-89): either the
no-data signal or the min|max pair. -/
inductive RangeResult
  | noData
  | range (lo hi : Int)
deriving DecidableEq

/-- excel_server.py lines 88-89: Python min()/max() over the collected
date list, or the no-data string when it is empty. -/
def min_max_of : List Int → RangeResult
  | [] => .noData
  | d :: rest => .range (rest.foldl min d) (rest.foldl max d)

/-- excel_server.py lines 76-89: get_data_date_range. Each sheet read is
wrapped in try/except: a sheet that is missing or has no date column
contributes nothing (modelled Option.none); otherwise its dates extend the
pool. The two pools are concatenated in source order (GitHub then Jira). -/
def get_data_date_range (git jira : Option (List Int)) : RangeResult :=
  min_max_of (git.getD [] ++ jira.getD [])

/-- One row of the Jira_Activity sheet as read by read_unified_date_range
(excel_server.py: columns Date, Project, Key, Summary, Description). -/
structure JiraSheetRow where
  date : Int
  project : String
  key : String
  summary : String
  description : String
deriving DecidableEq

/-- One row of the GitHub_Activity sheet as read by read_unified_date_range
(excel_server.py: columns date, repo, ai_summary). -/
structure GitSheetRow where
  date : Int
  repo : String
  ai_summary : String
deriving DecidableEq

/-- Ascending date order on Jira sheet rows (sort_values ascending). -/
def jiraDateLE (a b : JiraSheetRow) : Prop := a.date ≤ b.date

/-- Descending date order on Jira sheet rows (sort_values ascending=False). -/
def jiraDateGE (a b : JiraSheetRow) : Prop := b.date ≤ a.date

/-- Ascending date order on GitHub sheet rows. -/
def gitDateLE (a b : GitSheetRow) : Prop := a.date ≤ b.date

instance : DecidableRel jiraDateLE := fun a b => Int.decLe a.date b.date

instance : DecidableRel jiraDateGE := fun a b => Int.decLe b.date a.date

instance : DecidableRel gitDateLE := fun a b => Int.decLe a.date b.date

instance : IsTotal JiraSheetRow jiraDateGE :=
  ⟨fun a b => (le_total a.date b.date).symm⟩

instance : IsTrans JiraSheetRow jiraDateGE :=
  ⟨fun _ _ _ h1 h2 => le_trans h2 h1⟩

/-- The Jira part of the context string built by read_unified_date_range
(excel_server.py lines 109-130): either nothing (sheet missing or no rows at
all), the in-window block, or the gap-filling fallback block labeled
RECENT (PAST) JIRA CONTEXT (For Gap Filling Only). -/
inductive JiraSection
  | absent
  | inWindow (rows : List JiraSheetRow)
  | contextOnly (rows : List JiraSheetRow)
deriving DecidableEq

/-- excel_server.py lines 110-130: the Jira branch of read_unified_date_range.
Rows with start ≤ date ≤ end are selected and sorted ascending; when that
selection is empty, the fallback sorts ALL rows by date descending and takes
the first 3 (pandas sort_values is an unstable quicksort; insertionSort is
used here — the claims settled below do not depend on tie order). -/
def jira_section (rows : List JiraSheetRow) (s e : Int) : JiraSection :=
  let filtered := List.insertionSort jiraDateLE
    (rows.filter (fun r => decide (s ≤ r.date ∧ r.date ≤ e)))
  if filtered.isEmpty then
    let last3 := (List.insertionSort jiraDateGE rows).take 3
    if last3.isEmpty then .absent else .contextOnly last3
  else .inWindow filtered

/-- excel_server.py lines 96-107: the GitHub branch of read_unified_date_range.
Only rows with start ≤ date ≤ end appear, under the in-window GITHUB ACTIVITY
label; there is no fallback for this source. -/
def git_section (rows : List GitSheetRow) (s e : Int) : Option (List GitSheetRow) :=
  let filtered := List.insertionSort gitDateLE
    (rows.filter (fun r => decide (s ≤ r.date ∧ r.date ≤ e)))
  if filtered.isEmpty then none else some filtered

/-- excel_server.py lines 92-132: read_unified_date_range assembles the
GitHub block followed by the Jira block. -/
def read_unified_date_range (git : List GitSheetRow) (jira : List JiraSheetRow)
    (s e : Int) : Option (List GitSheetRow) × JiraSection :=
  (git_section git s e, jira_section jira s e)

/-- Python s.lower() kept as a String (used for the generated description). -/
def pyLower (s : String) : String := String.mk (s.toList.map Char.toLower)

/-- Python s[:n] slicing by code points, kept as a String. -/
def pyTake (s : String) (n : Nat) : String := String.mk (s.toList.take n)

/-- A GitHub_Activity row as consumed by generate_final_timesheet
(excel_server.py: only date and message are read there). -/
structure GhRow where
  date : Int
  message : String
deriving DecidableEq

/-- A Jira_Activity row as consumed by generate_final_timesheet
(excel_server.py: Project, Summary, Time Spent and the date are read).
Time Spent is a float in the source, modelled as a rational. -/
structure JiraRow where
  date : Int
  project : String
  summary : String
  timeSpent : Rat
deriving DecidableEq

/-- One entry of the AI enrichment JSON (client.py lines 227-235 build it
with both keys present; the tool reads each key with a default, so the
fields are optional here). -/
structure AiEntry where
  description : Option String
  remarks : Option String
deriving DecidableEq

/-- One row of the Final_Timesheet sheet, with every column written by
excel_server.py lines 215-231. -/
structure TimesheetRow where
  employee : String
  employeeName : String
  date : Int
  project : String
  activity : String
  task : String
  taskDescription : String
  authorizedHours : Nat
  authorizedUnits : Nat
  uom : String
  billable : String
  site : String
  role : String
  location : String
  authorizerRemarks : String
  workItem : String
  analysisCode : String
  remarks : String
  status : String
  bookedHours : Nat
  bookedUnits : Nat
  plannedHours : Rat
  balanceHours : Rat
deriving DecidableEq

/-- excel_server.py lines 183-231: the per-date body of the loop in
generate_final_timesheet. jrDay and ghDay filter the sheets to the target
date; Jira data takes priority for project and task, then GitHub, then the
fixed defaults; jira_hours is initialized to 0 and summed over the day's
Time Spent column when Jira rows exist (the sum over no rows is 0, so the
filter-sum below is the same value); description and remarks come from the
AI enrichment JSON with the shown defaults. -/
def make_day_row (ai : Int → Option AiEntry) (eid ename : String)
    (gh : List GhRow) (jr : List JiraRow) (d : Int) : TimesheetRow :=
  let jrDay := jr.filter (fun r => r.date == d)
  let ghDay := gh.filter (fun r => r.date == d)
  let pt : String × String :=
    match jrDay with
    | r :: _ => (r.project, r.summary)
    | [] =>
      match ghDay with
      | g :: _ => ("Internal Development", "Code Implementation: " ++ pyTake g.message 50 ++ "...")
      | [] => ("Internal Development", "General Development")
  let jiraHours : Rat := (jrDay.map (fun r => r.timeSpent)).sum
  let description :=
    match ai d with
    | some entry => entry.description.getD ("Performed " ++ pyLower pt.2 ++ ".")
    | none => "Performed " ++ pyLower pt.2 ++ "."
  let theRemarks :=
    match ai d with
    | some entry => entry.remarks.getD "Completed assigned tasks."
    | none => "Completed assigned tasks."
  { employee := eid, employeeName := ename, date := d, project := pt.1,
    activity := "Development", task := pt.2, taskDescription := description,
    authorizedHours := 4, authorizedUnits := 3, uom := "a", billable := "yes",
    site := "Onsite", role := "Software Engineer", location := "chennai",
    authorizerRemarks := "good", workItem := "001", analysisCode := "nice",
    remarks := theRemarks, status := "done", bookedHours := 8, bookedUnits := 3,
    plannedHours := jiraHours, balanceHours := 0 }

/-- excel_server.py lines 177-231: generate_final_timesheet. target_dates
is the list start, start+1, ..., start+num_days-1 and one row is appended
per target date, in that order. -/
def generate_final_timesheet (ai : Int → Option AiEntry) (eid ename : String)
    (gh : List GhRow) (jr : List JiraRow) (start : Int) (num_days : Nat) :
    List TimesheetRow :=
  (List.range num_days).map
    (fun (i : Nat) => make_day_row ai eid ename gh jr (start + (i : Int)))

/-- Decimal value of a digit string, as Python int() reads it. -/
def digitsToNat (l : List Char) : Nat :=
  l.foldl (fun a c => a * 10 + (c.toNat - 48)) 0

/-- client.py line 185: num_days = int(days_input) if days_input.isdigit()
else 5. Python isdigit is true exactly on a non-empty all-digit string, so a
negative or empty input silently falls back to the default 5. -/
def parse_num_days (s : String) : Nat :=
  if !s.toList.isEmpty && s.toList.all Char.isDigit then digitsToNat s.toList
  else 5

/-- Gregorian leap-year rule (as datetime uses). -/
def is_leap_year (y : Nat) : Bool :=
  y % 4 == 0 && (y % 100 != 0 || y % 400 == 0)

/-- Number of days of month m in year y (as datetime validates). -/
def days_in_month (y m : Nat) : Nat :=
  if m == 2 then (if is_leap_year y then 29 else 28)
  else if m == 4 || m == 6 || m == 9 || m == 11 then 30
  else 31

/-- Day number of a valid civil date (Howard Hinnant's days-from-civil
computation shifted to a nonnegative epoch; valid for y ≥ 1, which
parse_date guarantees). Only used to map parsed dates onto the abstract
day-number axis; the claims never depend on the concrete epoch. -/
def days_from_civil (y m d : Nat) : Nat :=
  let yy := y - (if m ≤ 2 then 1 else 0)
  let era := yy / 400
  let yoe := yy % 400
  let mp := (m + 9) % 12
  let doy := (153 * mp + 2) / 5 + d - 1
  let doe := yoe * 365 + yoe / 4 - yoe / 100 + doy
  era * 146097 + doe

/-- Split a character list on a separator character (models the scan
strptime performs against the literal dashes of the format string). -/
def splitOnChar (c : Char) : List Char → List (List Char)
  | [] => [[]]
  | x :: xs =>
    let r := splitOnChar c xs
    if x == c then [] :: r
    else
      match r with
      | [] => [[x]]
      | h :: t => (x :: h) :: t

/-- client.py line 188: datetime.strptime(start_input, "%Y-%m-%d"),
returning the parsed date as a day number or none when strptime raises.
CPython builds the acceptance regex from _strptime.py: the format's
literal dashes separate the groups; the year group is exactly four digits
(%Y compiles to four \d); the month group is one or two digits whose value
is 1..12 (alternation 1[0-2] or 0[1-9] or [1-9], so neither "0" nor "00"
nor a three-digit group matches); the day group is one or two digits whose
value is 1..31 (3[01] or [12] then a digit, or 0[1-9] or [1-9]); the match
must consume the whole input. The datetime constructor then raises unless
MINYEAR 1 ≤ year and the day fits the month (leap years included). -/
def parse_date (s : String) : Option Nat :=
  match splitOnChar '-' s.toList with
  | [ys, ms, ds] =>
    if ys.all Char.isDigit && ms.all Char.isDigit && ds.all Char.isDigit &&
       ys.length == 4 &&
       (ms.length == 1 || ms.length == 2) &&
       (ds.length == 1 || ds.length == 2) then
      let y := digitsToNat ys
      let m := digitsToNat ms
      let d := digitsToNat ds
      if 1 ≤ y ∧ 1 ≤ m ∧ m ≤ 12 ∧ 1 ≤ d ∧ d ≤ 31 ∧ d ≤ days_in_month y m then
        some (days_from_civil y m d)
      else none
    else none
  | _ => none

/-- Outcome of one reporter run: the terminal failure value
final_timesheet = "Failed." or a produced timesheet. -/
inductive ReporterResult
  | failed
  | produced (rows : List TimesheetRow)
deriving DecidableEq

/-- client.py lines 156-264: the input-validation and generation path of
reporter_node. The day-count prompt is parsed first (line 185); parsing the
start date (line 188) raises on malformed input, which the surrounding
try/except turns into the terminal "Failed." result with no timesheet and
no retry. With a valid start date the run proceeds to
generate_final_timesheet (the intervening context-reading and AI calls only
shape the ai map passed through here). -/
def reporter_node (ai : Int → Option AiEntry) (eid ename : String)
    (gh : List GhRow) (jr : List JiraRow)
    (start_input days_input : String) : ReporterResult :=
  let num_days := parse_num_days days_input
  match parse_date start_input with
  | none => .failed
  | some start =>
    .produced (generate_final_timesheet ai eid ename gh jr (start : Int) num_days)

/-- The empty needle is a substring of everything, as in Python. -/
theorem pyIn_nil (l : List Char) : pyIn [] l = true := by
  cases l <;> simp [pyIn, isPrefixChars, List.isEmpty]

/-- A list is a pyIn-prefix of itself followed by anything. -/
theorem isPrefixChars_append (l t : List Char) : isPrefixChars l (l ++ t) = true := by
  induction l with
  | nil => simp [isPrefixChars]
  | cons a as ih => simp [isPrefixChars, ih]

/-- pyIn is complete for genuine substring containment. -/
theorem pyIn_complete {l1 l2 : List Char} (h : l1 <:+: l2) : pyIn l1 l2 = true := by
  obtain ⟨s, t, rfl⟩ := h
  induction s with
  | nil =>
    cases l1 with
    | nil => exact pyIn_nil _
    | cons a as =>
      have hp := isPrefixChars_append (a :: as) t
      simp only [List.cons_append] at hp
      simp [pyIn, hp]
  | cons x s ih =>
    simp only [List.cons_append, pyIn, Bool.or_eq_true]
    right
    simpa using ih

/-- Claim C2: for every non-empty author name a and non-empty target
username u, the identity matcher returns true whenever the lowercase of u
is a substring of the lowercase of a or the lowercase of a is a substring
of the lowercase of u, for any linked-account login. -/
theorem C2_identity_matcher (login : Option String) (a u : String)
    (ha : a ≠ "") (_hu : u ≠ "")
    (hsub : lowerStr u <:+: lowerStr a ∨ lowerStr a <:+: lowerStr u) :
    is_match login a u = true := by
  have hloose : loose_match a u = true := by
    simp only [loose_match, beq_iff_eq, if_neg ha]
    rcases hsub with h | h
    · simp [pyIn_complete h]
    · simp [pyIn_complete h]
  by_cases hs : strict_match login u = true
  · simp [is_match, hs]
  · simp [is_match, hs, hloose]

/-- Witness for C2: the matcher accepts author "Alice Smith" against target
"alice" and author "alice" against target "Alice Smith". -/
theorem C2_identity_matcher_witness :
    (("Alice Smith" : String) ≠ "" ∧ ("alice" : String) ≠ "" ∧
      is_match none "Alice Smith" "alice" = true) ∧
    (("alice" : String) ≠ "" ∧ ("Alice Smith" : String) ≠ "" ∧
      is_match none "alice" "Alice Smith" = true) :=
  ⟨⟨by decide, by decide,
    C2_identity_matcher none "Alice Smith" "alice" (by decide) (by decide)
      (Or.inl ⟨[], " smith".toList, by decide⟩)⟩,
   ⟨by decide, by decide,
    C2_identity_matcher none "alice" "Alice Smith" (by decide) (by decide)
      (Or.inr ⟨[], " smith".toList, by decide⟩)⟩⟩

/-- Counterexample to claim C3 as stated: the matcher applied to author
"bob" with an empty target username returns true, not false — in Python the
empty username is a substring of every author name. -/
theorem C3_counterexample : is_match none "bob" "" = true := by decide

/-- Claim C3 as amended: with no linked-account login the matcher never
matches an empty (or missing) author name; but applied to author "bob" with
an empty target username it returns true, because the empty target is
contained in every author name. -/
theorem C3_amended (u : String) :
    is_match none "" u = false ∧ is_match none "bob" "" = true := by
  constructor
  · simp [is_match, strict_match, loose_match]
  · decide

/-- The traversal loop never emits more records than it consumes. -/
theorem fetch_go_length (u : String) (cs : List RawCommit) :
    ∀ seen, (fetch_go u cs seen).length ≤ cs.length := by
  induction cs with
  | nil => intro seen; simp [fetch_go]
  | cons c rest ih =>
    intro seen
    simp only [fetch_go, List.length_cons]
    split
    · exact Nat.le_succ_of_le (ih seen)
    · split
      · simpa using ih (c.sha :: seen)
      · exact Nat.le_succ_of_le (ih (c.sha :: seen))

/-- Every record the traversal loop keeps has a sha outside the incoming
seen set and is exactly the first record of the stream with that sha. -/
theorem fetch_go_mem (u : String) (cs : List RawCommit) :
    ∀ seen c, c ∈ fetch_go u cs seen →
      c.sha ∉ seen ∧ cs.find? (fun x => x.sha == c.sha) = some c := by
  induction cs with
  | nil => intro seen c h; simp [fetch_go] at h
  | cons a rest ih =>
    intro seen c h
    simp only [fetch_go] at h
    by_cases hseen : a.sha ∈ seen
    · rw [if_pos hseen] at h
      obtain ⟨hnot, hfind⟩ := ih seen c h
      have hne : a.sha ≠ c.sha := fun he => hnot (he ▸ hseen)
      refine ⟨hnot, ?_⟩
      rw [List.find?_cons_of_neg rest (by simp [hne]), hfind]
    · rw [if_neg hseen] at h
      by_cases hm : is_match a.authorLogin a.authorName u = true
      · rw [if_pos hm] at h
        rcases List.mem_cons.mp h with rfl | htail
        · exact ⟨hseen, by rw [List.find?_cons_of_pos rest (by simp)]⟩
        · obtain ⟨hnot, hfind⟩ := ih (a.sha :: seen) c htail
          have hnotseen : c.sha ∉ seen := fun hc => hnot (List.mem_cons_of_mem _ hc)
          have hne : a.sha ≠ c.sha := fun he => hnot (by simp [he])
          exact ⟨hnotseen, by rw [List.find?_cons_of_neg rest (by simp [hne]), hfind]⟩
      · rw [if_neg hm] at h
        obtain ⟨hnot, hfind⟩ := ih (a.sha :: seen) c h
        have hnotseen : c.sha ∉ seen := fun hc => hnot (List.mem_cons_of_mem _ hc)
        have hne : a.sha ≠ c.sha := fun he => hnot (by simp [he])
        exact ⟨hnotseen, by rw [List.find?_cons_of_neg rest (by simp [hne]), hfind]⟩

/-- The kept records carry pairwise distinct shas. -/
theorem fetch_go_nodup (u : String) (cs : List RawCommit) :
    ∀ seen, ((fetch_go u cs seen).map (fun c => c.sha)).Nodup := by
  induction cs with
  | nil => intro seen; simp [fetch_go]
  | cons a rest ih =>
    intro seen
    simp only [fetch_go]
    split
    · exact ih seen
    · split
      · simp only [List.map_cons, List.nodup_cons]
        refine ⟨?_, ih (a.sha :: seen)⟩
        intro hmem
        obtain ⟨c, hc, hsha⟩ := List.mem_map.mp hmem
        obtain ⟨hnot, _⟩ := fetch_go_mem u rest (a.sha :: seen) c hc
        exact hnot (by simp [hsha])
      · exact ih (a.sha :: seen)

/-- Claim C4: for every finite input stream of raw commits discovered across
any number of branches (in traversal order), the deduplicated user_commits
output contains at most as many records as the input, its identity keys
(shas) are pairwise distinct, and every kept record — origin_context
(branch) included — is the first occurrence of its sha in traversal order
(find? returns the first match). -/
theorem C4_deduplicator (u : String) (cs : List RawCommit) (c : RawCommit)
    (h : c ∈ fetch_user_commits u cs) :
    (fetch_user_commits u cs).length ≤ cs.length ∧
    ((fetch_user_commits u cs).map (fun x => x.sha)).Nodup ∧
    cs.find? (fun x => x.sha == c.sha) = some c :=
  ⟨fetch_go_length u cs [], fetch_go_nodup u cs [],
    (fetch_go_mem u cs [] c h).2⟩

/-- Witness for C4: the same commit reachable from branches main and dev is
kept once, with the branch context of its first traversal occurrence. -/
theorem C4_deduplicator_witness :
    (RawCommit.mk "abc123def" "main" (some "alice") "Alice L" 10 "fix bug"
        ∈ fetch_user_commits "alice"
          [RawCommit.mk "abc123def" "main" (some "alice") "Alice L" 10 "fix bug",
           RawCommit.mk "abc123def" "dev" (some "alice") "Alice L" 10 "fix bug"]) ∧
    ((fetch_user_commits "alice"
          [RawCommit.mk "abc123def" "main" (some "alice") "Alice L" 10 "fix bug",
           RawCommit.mk "abc123def" "dev" (some "alice") "Alice L" 10 "fix bug"]).length ≤ 2 ∧
      ((fetch_user_commits "alice"
          [RawCommit.mk "abc123def" "main" (some "alice") "Alice L" 10 "fix bug",
           RawCommit.mk "abc123def" "dev" (some "alice") "Alice L" 10 "fix bug"]).map
            (fun x => x.sha)).Nodup ∧
      [RawCommit.mk "abc123def" "main" (some "alice") "Alice L" 10 "fix bug",
       RawCommit.mk "abc123def" "dev" (some "alice") "Alice L" 10 "fix bug"].find?
          (fun x => x.sha == "abc123def") =
        some (RawCommit.mk "abc123def" "main" (some "alice") "Alice L" 10 "fix bug")) :=
  ⟨by decide,
    C4_deduplicator "alice"
      [RawCommit.mk "abc123def" "main" (some "alice") "Alice L" 10 "fix bug",
       RawCommit.mk "abc123def" "dev" (some "alice") "Alice L" 10 "fix bug"]
      (RawCommit.mk "abc123def" "main" (some "alice") "Alice L" 10 "fix bug")
      (by decide)⟩

/-- The enrichment loop emits one record per input commit. -/
theorem enrich_go_length (lines : List String) :
    ∀ k ms, (enrich_go lines k ms).length = ms.length := by
  intro k ms
  induction ms generalizing k with
  | nil => simp [enrich_go]
  | cons m rest ih => simp [enrich_go, ih]

/-- Past the end of the returned lines, the loop keeps the raw message. -/
theorem enrich_go_getElem (lines : List String) :
    ∀ (ms : List String) (k idx : Nat), lines.length ≤ k + idx →
      (enrich_go lines k ms)[idx]? = ms[idx]?.map (fun m => (m, m)) := by
  intro ms
  induction ms with
  | nil => intro k idx _; simp [enrich_go]
  | cons m rest ih =>
    intro k idx h
    cases idx with
    | zero =>
      have hnone : lines[k]? = none := List.getElem?_eq_none (by omega)
      simp [enrich_go, hnone]
    | succ j =>
      simp only [enrich_go, List.getElem?_cons_succ]
      exact ih (k + 1) j (by omega)

/-- Claim C7: for every batch of commits sent to the text-generation
capability, if fewer lines come back than there are commits, every commit
at an index beyond the returned line count keeps its original raw message
as its summary, and the enrichment step stays total (the loop itself never
errors; a raised exception is caught upstream and also falls back to raw
messages). -/
theorem C7_enrichment_fallback (batch lines : List String) (idx : Nat)
    (h : lines.length ≤ idx) :
    (batch_enrich_commits batch lines).length = batch.length ∧
    (batch_enrich_commits batch lines)[idx]? = batch[idx]?.map (fun m => (m, m)) :=
  ⟨enrich_go_length lines 0 batch, enrich_go_getElem lines batch 0 idx (by omega)⟩

/-- Witness for C7: text generation returns 2 lines for a 3-item batch, and
the 3rd commit keeps its raw message as its summary. -/
theorem C7_enrichment_fallback_witness :
    (["1. Fixed the parser.", "2. Added the cache."] : List String).length ≤ 2 ∧
    ((batch_enrich_commits ["fix parser", "add cache", "wip stuff"]
        ["1. Fixed the parser.", "2. Added the cache."]).length = 3 ∧
      (batch_enrich_commits ["fix parser", "add cache", "wip stuff"]
        ["1. Fixed the parser.", "2. Added the cache."])[2]? =
        some ("wip stuff", "wip stuff")) :=
  ⟨by decide,
    C7_enrichment_fallback ["fix parser", "add cache", "wip stuff"]
      ["1. Fixed the parser.", "2. Added the cache."] 2 (by decide)⟩

/-- A min-fold is bounded by its starting value. -/
theorem foldl_min_le_init (l : List Int) : ∀ a : Int, l.foldl min a ≤ a := by
  induction l with
  | nil => intro a; simp
  | cons b l ih =>
    intro a
    calc (b :: l).foldl min a = l.foldl min (min a b) := by simp [List.foldl_cons]
    _ ≤ min a b := ih (min a b)
    _ ≤ a := min_le_left a b

/-- A min-fold is bounded by every list element. -/
theorem foldl_min_le_mem (l : List Int) : ∀ a : Int, ∀ x ∈ l, l.foldl min a ≤ x := by
  induction l with
  | nil => intro a x hx; simp at hx
  | cons b l ih =>
    intro a x hx
    rcases List.mem_cons.mp hx with rfl | hx
    · calc (x :: l).foldl min a = l.foldl min (min a x) := by simp [List.foldl_cons]
      _ ≤ min a x := foldl_min_le_init l (min a x)
      _ ≤ x := min_le_right a x
    · simpa [List.foldl_cons] using ih (min a b) x hx

/-- A min-fold returns its starting value or a list element. -/
theorem foldl_min_choice (l : List Int) : ∀ a : Int, l.foldl min a = a ∨ l.foldl min a ∈ l := by
  induction l with
  | nil => intro a; left; rfl
  | cons b l ih =>
    intro a
    rcases ih (min a b) with h | h
    · rcases min_choice a b with hm | hm
      · left; simpa [List.foldl_cons, hm] using h
      · right
        rw [List.foldl_cons, h, hm]
        exact List.mem_cons_self b l
    · right; simp [List.foldl_cons]; right; exact h

/-- A max-fold dominates its starting value. -/
theorem foldl_max_ge_init (l : List Int) : ∀ a : Int, a ≤ l.foldl max a := by
  induction l with
  | nil => intro a; simp
  | cons b l ih =>
    intro a
    calc a ≤ max a b := le_max_left a b
    _ ≤ l.foldl max (max a b) := ih (max a b)
    _ = (b :: l).foldl max a := by simp [List.foldl_cons]

/-- A max-fold dominates every list element. -/
theorem foldl_max_ge_mem (l : List Int) : ∀ a : Int, ∀ x ∈ l, x ≤ l.foldl max a := by
  induction l with
  | nil => intro a x hx; simp at hx
  | cons b l ih =>
    intro a x hx
    rcases List.mem_cons.mp hx with rfl | hx
    · calc x ≤ max a x := le_max_right a x
      _ ≤ l.foldl max (max a x) := foldl_max_ge_init l (max a x)
      _ = (x :: l).foldl max a := by simp [List.foldl_cons]
    · simpa [List.foldl_cons] using ih (max a b) x hx

/-- A max-fold returns its starting value or a list element. -/
theorem foldl_max_choice (l : List Int) : ∀ a : Int, l.foldl max a = a ∨ l.foldl max a ∈ l := by
  induction l with
  | nil => intro a; left; rfl
  | cons b l ih =>
    intro a
    rcases ih (max a b) with h | h
    · rcases max_choice a b with hm | hm
      · left; simpa [List.foldl_cons, hm] using h
      · right
        rw [List.foldl_cons, h, hm]
        exact List.mem_cons_self b l
    · right; simp [List.foldl_cons]; right; exact h

/-- min_max_of on a non-empty pool is the range of its minimum and maximum. -/
theorem min_max_of_spec (d : Int) (rest : List Int) :
    ∃ lo hi, min_max_of (d :: rest) = .range lo hi ∧
      lo ∈ d :: rest ∧ hi ∈ d :: rest ∧
      ∀ x ∈ d :: rest, lo ≤ x ∧ x ≤ hi := by
  refine ⟨rest.foldl min d, rest.foldl max d, rfl, ?_, ?_, ?_⟩
  · rcases foldl_min_choice rest d with h | h
    · simp [h]
    · exact List.mem_cons_of_mem _ h
  · rcases foldl_max_choice rest d with h | h
    · simp [h]
    · exact List.mem_cons_of_mem _ h
  · intro x hx
    rcases List.mem_cons.mp hx with rfl | hx
    · exact ⟨foldl_min_le_init rest x, foldl_max_ge_init rest x⟩
    · exact ⟨foldl_min_le_mem rest d x hx, foldl_max_ge_mem rest d x hx⟩

/-- Claim C5: get_data_date_range over an empty combined event set returns
the no-data signal (and, being a total function of the two sheet reads, it
never throws: each failing sheet read is absorbed as an absent pool); when
only one of the two sources has data it still returns the minimum and
maximum date of that pool. -/
theorem C5_available_range (ds : List Int) (h : ds ≠ []) :
    get_data_date_range none none = .noData ∧
    get_data_date_range (some []) (some []) = .noData ∧
    (∃ lo hi, get_data_date_range (some ds) none = .range lo hi ∧
      lo ∈ ds ∧ hi ∈ ds ∧ ∀ x ∈ ds, lo ≤ x ∧ x ≤ hi) ∧
    (∃ lo hi, get_data_date_range none (some ds) = .range lo hi ∧
      lo ∈ ds ∧ hi ∈ ds ∧ ∀ x ∈ ds, lo ≤ x ∧ x ≤ hi) := by
  obtain ⟨d, rest, rfl⟩ := List.exists_cons_of_ne_nil h
  refine ⟨rfl, rfl, ?_, ?_⟩
  · have : get_data_date_range (some (d :: rest)) none = min_max_of (d :: rest) := by
      simp [get_data_date_range]
    rw [this]
    exact min_max_of_spec d rest
  · have : get_data_date_range none (some (d :: rest)) = min_max_of (d :: rest) := by
      simp [get_data_date_range]
    rw [this]
    exact min_max_of_spec d rest

/-- Witness for C5: a single-source pool of three dates yields its min and
max, and empty pools yield the no-data signal. -/
theorem C5_available_range_witness :
    ([3, 1, 4] : List Int) ≠ [] ∧
    (get_data_date_range none none = .noData ∧
      get_data_date_range (some []) (some []) = .noData ∧
      (∃ lo hi, get_data_date_range (some [3, 1, 4]) none = .range lo hi ∧
        lo ∈ ([3, 1, 4] : List Int) ∧ hi ∈ ([3, 1, 4] : List Int) ∧
        ∀ x ∈ ([3, 1, 4] : List Int), lo ≤ x ∧ x ≤ hi) ∧
      (∃ lo hi, get_data_date_range none (some [3, 1, 4]) = .range lo hi ∧
        lo ∈ ([3, 1, 4] : List Int) ∧ hi ∈ ([3, 1, 4] : List Int) ∧
        ∀ x ∈ ([3, 1, 4] : List Int), lo ≤ x ∧ x ≤ hi)) :=
  ⟨by decide, C5_available_range [3, 1, 4] (by decide)⟩

/-- Counterexample to claim C6 as stated: with a single issue-tracker event
dated day 10 and the requested window [1, 5] (zero issue-tracker events in
the window), the fallback surfaces that event even though it lies AFTER the
window, not before it — the code takes the most recent rows of the whole
store, with no before-the-window restriction. -/
theorem C6_counterexample :
    jira_section [JiraSheetRow.mk 10 "P" "K-1" "S" "D"] 1 5 =
      JiraSection.contextOnly [JiraSheetRow.mk 10 "P" "K-1" "S" "D"] ∧
    5 < (JiraSheetRow.mk 10 "P" "K-1" "S" "D").date := by decide

/-- Claim C6 as amended: when a requested window holds zero issue-tracker
events, read_unified_date_range surfaces the up-to-3 most-recent
issue-tracker events of the WHOLE store (which may lie after the window,
not only before it), labeled context-only; and no event from outside
[start, end] is ever presented under an in-window activity label (Jira or
GitHub). -/
theorem C6_gap_filling (rows : List JiraSheetRow) (s e : Int)
    (hwin : rows.filter (fun r => decide (s ≤ r.date ∧ r.date ≤ e)) = [])
    (hne : rows ≠ []) :
    (∃ l, jira_section rows s e = .contextOnly l ∧ l ≠ [] ∧ l.length ≤ 3 ∧
      (∀ x ∈ l, x ∈ rows) ∧
      ∀ x ∈ l, ∀ y ∈ rows, y ∉ l → y.date ≤ x.date) ∧
    (∀ (rows2 l2 : List JiraSheetRow),
      jira_section rows2 s e = .inWindow l2 → ∀ x ∈ l2, s ≤ x.date ∧ x.date ≤ e) ∧
    (∀ (g l2 : List GitSheetRow),
      git_section g s e = some l2 → ∀ x ∈ l2, s ≤ x.date ∧ x.date ≤ e) := by
  have hperm : List.Perm (List.insertionSort jiraDateGE rows) rows :=
    List.perm_insertionSort jiraDateGE rows
  have htake_ne : (List.insertionSort jiraDateGE rows).take 3 ≠ [] := by
    intro h0
    have hlen := congrArg List.length h0
    simp only [List.length_take, List.length_nil] at hlen
    have hs0 : (List.insertionSort jiraDateGE rows).length = 0 := by omega
    exact hne (by
      have := hperm.length_eq
      rw [hs0] at this
      exact (List.length_eq_zero.mp this.symm))
  refine ⟨⟨(List.insertionSort jiraDateGE rows).take 3, ?_, htake_ne, ?_, ?_, ?_⟩, ?_, ?_⟩
  · simp only [jira_section, hwin]
    have e1 : (List.insertionSort jiraDateLE ([] : List JiraSheetRow)).isEmpty = true := rfl
    rw [if_pos e1, if_neg]
    simp only [List.isEmpty_iff]
    exact htake_ne
  · simp only [List.length_take]
    omega
  · intro x hx
    exact hperm.mem_iff.mp (List.mem_of_mem_take hx)
  · intro x hx y hy hyn
    have hysorted : y ∈ List.insertionSort jiraDateGE rows := hperm.mem_iff.mpr hy
    have hsplit := List.take_append_drop 3 (List.insertionSort jiraDateGE rows)
    have hydrop : y ∈ (List.insertionSort jiraDateGE rows).drop 3 := by
      rcases List.mem_append.mp (by rw [hsplit]; exact hysorted) with h1 | h1
      · exact absurd h1 hyn
      · exact h1
    have hpw : List.Pairwise jiraDateGE (List.insertionSort jiraDateGE rows) :=
      List.sorted_insertionSort jiraDateGE rows
    rw [← hsplit] at hpw
    exact (List.pairwise_append.mp hpw).2.2 x hx y hydrop
  · intro rows2 l2 hsec x hx
    simp only [jira_section] at hsec
    split at hsec
    · split at hsec <;> simp_all
    · have hl2 : l2 = List.insertionSort jiraDateLE
          (rows2.filter (fun r => decide (s ≤ r.date ∧ r.date ≤ e))) := by
        cases hsec; rfl
      rw [hl2] at hx
      have hxf : x ∈ rows2.filter (fun r => decide (s ≤ r.date ∧ r.date ≤ e)) := by
        simpa using hx
      exact of_decide_eq_true (List.mem_filter.mp hxf).2
  · intro g l2 hsec x hx
    simp only [git_section] at hsec
    split at hsec
    · simp_all
    · have hl2 : l2 = List.insertionSort gitDateLE
          (g.filter (fun r => decide (s ≤ r.date ∧ r.date ≤ e))) := by
        cases hsec; rfl
      rw [hl2] at hx
      have hxf : x ∈ g.filter (fun r => decide (s ≤ r.date ∧ r.date ≤ e)) := by
        simpa using hx
      exact of_decide_eq_true (List.mem_filter.mp hxf).2

/-- Witness for C6 (amended): a store whose only issue-tracker event is on
day 10 with requested window [1, 5]. -/
theorem C6_gap_filling_witness :
    (([JiraSheetRow.mk 10 "P" "K-1" "S" "D"].filter
        (fun r => decide ((1 : Int) ≤ r.date ∧ r.date ≤ 5)) = []) ∧
      [JiraSheetRow.mk 10 "P" "K-1" "S" "D"] ≠ []) ∧
    ((∃ l, jira_section [JiraSheetRow.mk 10 "P" "K-1" "S" "D"] 1 5 = .contextOnly l ∧
        l ≠ [] ∧ l.length ≤ 3 ∧
        (∀ x ∈ l, x ∈ [JiraSheetRow.mk 10 "P" "K-1" "S" "D"]) ∧
        ∀ x ∈ l, ∀ y ∈ [JiraSheetRow.mk 10 "P" "K-1" "S" "D"], y ∉ l → y.date ≤ x.date) ∧
      (∀ (rows2 l2 : List JiraSheetRow),
        jira_section rows2 1 5 = .inWindow l2 → ∀ x ∈ l2, 1 ≤ x.date ∧ x.date ≤ 5) ∧
      (∀ (g l2 : List GitSheetRow),
        git_section g 1 5 = some l2 → ∀ x ∈ l2, 1 ≤ x.date ∧ x.date ≤ 5)) :=
  ⟨⟨by decide, by decide⟩,
    C6_gap_filling [JiraSheetRow.mk 10 "P" "K-1" "S" "D"] 1 5 (by decide) (by decide)⟩

/-- Claim C1: for every start date, day count n and event pool (including
empty pools), generate_final_timesheet emits exactly n rows, whose dates
are exactly start, start+1, ..., start+n-1 in ascending order — i.e. one
row per date of the inclusive window [start, start+n-1]. -/
theorem C1_allocator (ai : Int → Option AiEntry) (eid ename : String)
    (gh : List GhRow) (jr : List JiraRow) (start : Int) (n : Nat) :
    (generate_final_timesheet ai eid ename gh jr start n).length = n ∧
    (generate_final_timesheet ai eid ename gh jr start n).map (fun r => r.date) =
      (List.range n).map (fun (i : Nat) => start + (i : Int)) ∧
    ((generate_final_timesheet ai eid ename gh jr start n).map
      (fun r => r.date)).Sorted (· < ·) ∧
    ∀ d : Int,
      d ∈ (generate_final_timesheet ai eid ename gh jr start n).map (fun r => r.date) ↔
        start ≤ d ∧ d < start + n := by
  have hdates : (generate_final_timesheet ai eid ename gh jr start n).map
      (fun r => r.date) = (List.range n).map (fun (i : Nat) => start + (i : Int)) := by
    simp only [generate_final_timesheet, List.map_map]
    rfl
  refine ⟨?_, hdates, ?_, ?_⟩
  · simp only [generate_final_timesheet, List.length_map, List.length_range]
  · rw [hdates]
    refine List.pairwise_map.mpr ((List.pairwise_lt_range n).imp ?_)
    intro a b hab
    have : (a : Int) < (b : Int) := by exact_mod_cast hab
    omega
  · intro d
    rw [hdates]
    simp only [List.mem_map, List.mem_range]
    constructor
    · rintro ⟨i, hi, rfl⟩
      constructor
      · omega
      · have : (i : Int) < (n : Int) := by exact_mod_cast hi
        omega
    · rintro ⟨h1, h2⟩
      refine ⟨(d - start).toNat, ?_, ?_⟩
      · omega
      · omega

/-- Claim C10: every emitted row carries the fixed constants
Authorized Hours 4, Booked Hours 8, Billable yes and Status done,
independent of the input pool; its Planned Hours is the exact sum of the
Jira Time Spent values for its date, and 0 when that date has no
issue-tracker rows. -/
theorem C10_fixed_fields (ai : Int → Option AiEntry) (eid ename : String)
    (gh : List GhRow) (jr : List JiraRow) (start : Int) (n : Nat)
    (r : TimesheetRow) (h : r ∈ generate_final_timesheet ai eid ename gh jr start n) :
    r.authorizedHours = 4 ∧ r.bookedHours = 8 ∧ r.billable = "yes" ∧
    r.status = "done" ∧
    r.plannedHours =
      ((jr.filter (fun j => j.date == r.date)).map (fun j => j.timeSpent)).sum ∧
    (jr.filter (fun j => j.date == r.date) = [] → r.plannedHours = 0) := by
  simp only [generate_final_timesheet, List.mem_map] at h
  obtain ⟨i, _, rfl⟩ := h
  have h5 : (make_day_row ai eid ename gh jr (start + (i : Int))).plannedHours =
      ((jr.filter (fun j =>
          j.date == (make_day_row ai eid ename gh jr (start + (i : Int))).date)).map
        (fun j => j.timeSpent)).sum := rfl
  refine ⟨rfl, rfl, rfl, rfl, h5, fun hf => ?_⟩
  rw [h5, hf]
  rfl

/-- Witness for C10: a one-day window whose date has one Jira row with
3 hours of Time Spent. -/
theorem C10_fixed_fields_witness :
    make_day_row (fun _ => none) "E" "N" [] [JiraRow.mk 7 "P" "S" 3] 7 ∈
      generate_final_timesheet (fun _ => none) "E" "N" [] [JiraRow.mk 7 "P" "S" 3] 7 1 ∧
    ((make_day_row (fun _ => none) "E" "N" [] [JiraRow.mk 7 "P" "S" 3] 7).authorizedHours = 4 ∧
      (make_day_row (fun _ => none) "E" "N" [] [JiraRow.mk 7 "P" "S" 3] 7).bookedHours = 8 ∧
      (make_day_row (fun _ => none) "E" "N" [] [JiraRow.mk 7 "P" "S" 3] 7).billable = "yes" ∧
      (make_day_row (fun _ => none) "E" "N" [] [JiraRow.mk 7 "P" "S" 3] 7).status = "done" ∧
      (make_day_row (fun _ => none) "E" "N" [] [JiraRow.mk 7 "P" "S" 3] 7).plannedHours =
        (([JiraRow.mk 7 "P" "S" 3].filter (fun j =>
            j.date == (make_day_row (fun _ => none) "E" "N" [] [JiraRow.mk 7 "P" "S" 3] 7).date)).map
          (fun j => j.timeSpent)).sum ∧
      ([JiraRow.mk 7 "P" "S" 3].filter (fun j =>
          j.date == (make_day_row (fun _ => none) "E" "N" [] [JiraRow.mk 7 "P" "S" 3] 7).date) = [] →
        (make_day_row (fun _ => none) "E" "N" [] [JiraRow.mk 7 "P" "S" 3] 7).plannedHours = 0)) :=
  ⟨by simp [generate_final_timesheet, show List.range 1 = [0] from rfl],
    C10_fixed_fields (fun _ => none) "E" "N" [] [JiraRow.mk 7 "P" "S" 3] 7 1
      (make_day_row (fun _ => none) "E" "N" [] [JiraRow.mk 7 "P" "S" 3] 7)
      (by simp [generate_final_timesheet, show List.range 1 = [0] from rfl])⟩

/-- Counterexample to claim C8 as stated: a date with no events in the pool
(left: inferred slot) produces a row identical to the row of a date backed
by an issue-tracker event (right: a Jira row with project
Internal Development, summary General Development and 0 hours), so inferred
slots carry no tag and are not distinguishable from evidence-backed slots. -/
theorem C8_counterexample :
    make_day_row (fun _ => none) "E1" "N1" [] [] 5 =
      make_day_row (fun _ => none) "E1" "N1" []
        [JiraRow.mk 5 "Internal Development" "General Development" 0] 5 := by
  simp [make_day_row]

/-- Claim C8 as amended: a target date with no events receives the fixed
default labels (task General Development, project Internal Development)
rather than any explicit inferred tag — defaults that can coincide with
evidence-backed output; in the 3-day window whose only
event is a code event on the middle date, the first and last rows carry the
default task label and the middle row's task is derived from the code
event's message. -/
theorem C8_inferred_slots (ai : Int → Option AiEntry) (eid ename : String)
    (gh : List GhRow) (jr : List JiraRow) (d : Int)
    (hjr : jr.filter (fun r => r.date == d) = [])
    (hgh : gh.filter (fun r => r.date == d) = []) :
    (make_day_row ai eid ename gh jr d).task = "General Development" ∧
    (make_day_row ai eid ename gh jr d).project = "Internal Development" ∧
    ∀ (s : Int) (m : String),
      (generate_final_timesheet ai eid ename [GhRow.mk (s + 1) m] [] s 3).map
          (fun r => r.task) =
        ["General Development",
         "Code Implementation: " ++ pyTake m 50 ++ "...",
         "General Development"] := by
  refine ⟨?_, ?_, ?_⟩
  · simp [make_day_row, hjr, hgh]
  · simp [make_day_row, hjr, hgh]
  · intro s m
    have c0 : ¬ (((GhRow.mk (s + 1) m).date == s + ((0 : Nat) : Int)) = true) := by
      simp only [beq_iff_eq]
      push_cast
      omega
    have c1 : ((GhRow.mk (s + 1) m).date == s + ((1 : Nat) : Int)) = true := by
      simp only [beq_iff_eq]
      push_cast
      ring
    have c2 : ¬ (((GhRow.mk (s + 1) m).date == s + ((2 : Nat) : Int)) = true) := by
      simp only [beq_iff_eq]
      push_cast
      omega
    have h0 : ([GhRow.mk (s + 1) m].filter
        (fun r => r.date == s + ((0 : Nat) : Int))) = [] := by
      rw [List.filter_cons, if_neg c0, List.filter_nil]
    have h1 : ([GhRow.mk (s + 1) m].filter
        (fun r => r.date == s + ((1 : Nat) : Int))) = [GhRow.mk (s + 1) m] := by
      rw [List.filter_cons, if_pos c1, List.filter_nil]
    have h2 : ([GhRow.mk (s + 1) m].filter
        (fun r => r.date == s + ((2 : Nat) : Int))) = [] := by
      rw [List.filter_cons, if_neg c2, List.filter_nil]
    simp only [generate_final_timesheet, show List.range 3 = [0, 1, 2] from rfl,
      List.map_cons, List.map_nil]
    simp only [make_day_row, h0, h1, h2, List.filter_nil]

/-- Witness for C8 (amended): a concrete date with an empty pool. -/
theorem C8_inferred_slots_witness :
    (([] : List JiraRow).filter (fun r => r.date == (5 : Int)) = [] ∧
      ([] : List GhRow).filter (fun r => r.date == (5 : Int)) = []) ∧
    ((make_day_row (fun _ => none) "E" "N" [] [] 5).task = "General Development" ∧
      (make_day_row (fun _ => none) "E" "N" [] [] 5).project = "Internal Development" ∧
      ∀ (s : Int) (m : String),
        (generate_final_timesheet (fun _ => none) "E" "N" [GhRow.mk (s + 1) m] [] s 3).map
            (fun r => r.task) =
          ["General Development",
           "Code Implementation: " ++ pyTake m 50 ++ "...",
           "General Development"]) :=
  ⟨⟨rfl, rfl⟩, C8_inferred_slots (fun _ => none) "E" "N" [] [] 5 rfl rfl⟩

/-- Counterexample to claim C9 as stated: a day-count input of "0" is
non-positive, yet the run does not fail — int("0") passes the isdigit
check, zero target dates are generated, and the run succeeds with an empty
timesheet. -/
theorem C9_counterexample :
    reporter_node (fun _ => none) "E" "N" [] [] "2024-01-01" "0" =
      ReporterResult.produced [] ∧
    ReporterResult.produced ([] : List TimesheetRow) ≠ ReporterResult.failed := by
  constructor
  · decide
  · simp

/-- Claim C9 as amended: a malformed start date surfaces a terminal failure
for the run — no timesheet, no retry; but a non-positive day count is not
rejected: the input "0" parses to 0 and yields a successfully produced
empty timesheet, and a negative input such as "-3" fails the digit test and
silently falls back to the default of 5 days. -/
theorem C9_input_validation (ai : Int → Option AiEntry) (eid ename : String)
    (gh : List GhRow) (jr : List JiraRow) (s d : String)
    (h : parse_date s = none) :
    reporter_node ai eid ename gh jr s d = ReporterResult.failed ∧
    parse_num_days "0" = 0 ∧
    parse_num_days "-3" = 5 ∧
    ∀ (s2 : String) (n2 : Nat), parse_date s2 = some n2 →
      reporter_node ai eid ename gh jr s2 "0" = ReporterResult.produced [] := by
  refine ⟨?_, by decide, by decide, ?_⟩
  · simp only [reporter_node, h]
  · intro s2 n2 h2
    simp only [reporter_node, h2]
    have hz : parse_num_days "0" = 0 := by decide
    rw [hz]
    rfl

/-- Witness for C9 (amended): the malformed start date "bad" with any day
count fails terminally, while a valid start date with day count "0"
produces the empty timesheet. -/
theorem C9_input_validation_witness :
    parse_date "bad" = none ∧
    (reporter_node (fun _ => none) "E" "N" [] [] "bad" "7" = ReporterResult.failed ∧
      parse_num_days "0" = 0 ∧
      parse_num_days "-3" = 5 ∧
      ∀ (s2 : String) (n2 : Nat), parse_date s2 = some n2 →
        reporter_node (fun _ => none) "E" "N" [] [] s2 "0" =
          ReporterResult.produced []) :=
  ⟨by decide, C9_input_validation (fun _ => none) "E" "N" [] [] "bad" "7" (by decide)⟩
